import Mathlib

/-!
Verification of the bar-by-bar backtesting engine of `strategy_pipeline.py`.

The engine is embedded shallowly: every Python function that the claims
touch is translated into an executable Lean definition over exact
rationals (`ℚ` models Python floats, `ℤ` models epoch-millisecond
timestamps and signed counters, `ℕ` models list indices).  Python dicts
with insertion-order iteration are modelled by association lists whose
update keeps the slot of an existing key and appends fresh keys at the
end.  `Optional[float]` becomes `Option ℚ`.
-/

set_option allowUnsafeReducibility true in
attribute [semireducible] Rat.add Rat.mul Rat.inv Rat.sub Rat.ofScientific

namespace StrategyPipeline

/-- Tolerance constant `1e-9` that the source uses in `max(x, 1e-9)` guards. -/
def eps : ℚ := 1 / 1000000000

/-- Model of `math.sqrt` on the nonnegative rationals: `√(n/d) = √(n·d)/d`
computed with the integer square root.  It is exact on perfect squares,
maps `0` to `0` and positives to positives; the engine only ever compares
the result of `math.sqrt` against zero, so those are the only properties
the embedding relies on.  (Python's float square root is itself an
approximation, so an exact rational square root does not exist to mirror.) -/
def ratSqrt (q : ℚ) : ℚ :=
  if q ≤ 0 then 0 else (Nat.sqrt (q.num.toNat * q.den) : ℚ) / (q.den : ℚ)

/-- Association-list lookup (first binding of the key, as in a Python dict
with unique keys). -/
def alGetOpt {α : Type} : List (String × α) → String → Option α
  | [], _ => none
  | (k2, v) :: rest, k => if k2 = k then some v else alGetOpt rest k

/-- Lookup with a default value, as in `dict.get(k, d)` / `defaultdict`. -/
def alGet {α : Type} (m : List (String × α)) (k : String) (d : α) : α :=
  (alGetOpt m k).getD d

/-- Dict assignment `m[k] = v`: overwrite in place if the key exists,
append at the end otherwise (Python dicts iterate in insertion order). -/
def alSet {α : Type} : List (String × α) → String → α → List (String × α)
  | [], k, v => [(k, v)]
  | (k2, v2) :: rest, k, v =>
      if k2 = k then (k2, v) :: rest else (k2, v2) :: alSet rest k v

/-- Dict deletion `del m[k]` / `m.pop(k, None)`. -/
def alErase {α : Type} : List (String × α) → String → List (String × α)
  | [], _ => []
  | (k2, v2) :: rest, k => if k2 = k then rest else (k2, v2) :: alErase rest k

/-- One OHLCV bar (`Bar` dataclass). -/
structure Bar where
  ts : ℤ
  o : ℚ
  h : ℚ
  l : ℚ
  c : ℚ
  v : ℚ
deriving DecidableEq

instance : Inhabited Bar := ⟨⟨0, 0, 0, 0, 0, 0⟩⟩

/-- The strategy configuration (`Config` dataclass), with the source's
default values.  Bar-count windows that the code only uses for indexing
are `ℕ`; counters that the code compares with possibly nonpositive
configuration values are `ℤ`. -/
structure Config where
  L_ret : ℕ := 60
  lookback_sma : ℕ := 100
  ema_fast : ℕ := 20
  ema_slow : ℕ := 100
  donchian_n : ℕ := 20
  atr_n : ℕ := 14
  theta_ret : ℚ := 3 / 1000
  rebalance_every : ℤ := 15
  top_k : ℤ := 5
  risk_per_trade : ℚ := 5 / 1000
  max_actual_leverage : ℚ := 1
  per_symbol_exposure_max : ℚ := 1 / 5
  min_actual_leverage : ℚ := 0
  fee_rate : ℚ := 6 / 10000
  slippage_bps : ℚ := 1
  m1_init_sl_atr : ℚ := 3 / 2
  m2_trail_sl_atr : ℚ := 2
  time_stop_bars : ℤ := 12 * 60
  initial_equity : ℚ := 10000
  allow_long : Bool := true
  allow_short : Bool := true
  market_filter : Bool := false
  market_symbol : String := "BTC-USDT-SWAP"
  market_L : ℕ := 24
  market_theta : ℚ := 2 / 1000
  momentum_gate : Bool := false
  z_score_thresh : ℚ := 0
  pyramid_max_adds : ℤ := 3
  pyramid_step_atr : ℚ := 1
  pyramid_risk_multipliers : List ℚ := [1, 5 / 4, 3 / 2]
  be_after_adds : ℤ := 1
  be_rr : ℚ := 1
  lock_after_adds : ℤ := 2
  lock_atr_mult : ℚ := 1
  pool_size : ℤ := 12
  pool_mom_L1 : ℕ := 24 * 7
  pool_mom_L2 : ℕ := 24 * 14
  cooldown_bars : ℤ := 24
  roi_mode : String := "notional"
  report_leverage : ℚ := 10
deriving DecidableEq

/-- An open position (`Position` dataclass). -/
structure Position where
  symbol : String
  side : ℤ
  entry_ts : ℤ
  entry_price : ℚ
  qty : ℚ
  init_stop : ℚ
  trail_stop : ℚ
  atr_mult : ℚ
  max_fav_price : ℚ
  reason : String := ""
  equity_entry : ℚ := 0
  exposure_notional : ℚ := 0
  exposure_frac : ℚ := 0
  adds_done : ℕ := 0
  last_add_price : ℚ := 0
  acc_entry_notional : ℚ := 0
  init_stop_dist : ℚ := 0
deriving DecidableEq

/-- A closed trade record (`Trade` dataclass). -/
structure Trade where
  symbol : String
  side : String
  entry_ts : ℤ
  entry_price : ℚ
  exit_ts : ℤ
  exit_price : ℚ
  qty : ℚ
  pnl : ℚ
  pnl_pct : ℚ
  fees : ℚ
  reason : String
  equity_entry : ℚ
  exposure_notional : ℚ
  exposure_frac : ℚ
  adds_done : ℕ
  pnl_pct_raw : ℚ := 0
deriving DecidableEq

/-- `bps_to_price`: converts basis points into an absolute price offset. -/
def bpsToPrice (price : ℚ) (bps : ℚ) : ℚ := price * (bps / 10000)

/-- Python truthiness coercion `x or 0.0` on an optional float: `None`
becomes `0.0`, a float stays itself (a stored `0.0` is falsy, yielding the
same `0.0`). -/
def orZero (x : Option ℚ) : ℚ := x.getD 0

/-- Queue step of `sma`: append, then pop one element from the left when
the queue holds more than `n` entries. -/
def windowPush (n : ℕ) (q : List (Option ℚ)) (x : Option ℚ) : List (Option ℚ) :=
  let q1 := q ++ [x]
  if n < q1.length then q1.drop 1 else q1

/-- Recursive worker of `sma`. -/
def smaGo (n : ℕ) (q : List (Option ℚ)) : List (Option ℚ) → List (Option ℚ)
  | [] => []
  | x :: rest =>
      let q2 := windowPush n q x
      let valid := q2.filterMap id
      (if valid.length = n then some (valid.sum / (valid.length : ℚ)) else none) ::
        smaGo n q2 rest

/-- Simple moving average over a window of `n` values (`sma`): emits a
value only once the window holds exactly `n` non-null samples. -/
def sma (vals : List (Option ℚ)) (n : ℕ) : List (Option ℚ) := smaGo n [] vals

/-- Recursive worker of `ema`, carrying the previous EMA value. -/
def emaGo (k : ℚ) (prev : Option ℚ) : List (Option ℚ) → List (Option ℚ)
  | [] => []
  | none :: rest => none :: emaGo k prev rest
  | some x :: rest =>
      match prev with
      | none => some x :: emaGo k (some x) rest
      | some p =>
          let y := x * k + p * (1 - k)
          some y :: emaGo k (some y) rest

/-- Exponential moving average (`ema`) with smoothing `k = 2/(n+1)`,
seeded by the first non-null sample. -/
def ema (vals : List (Option ℚ)) (n : ℕ) : List (Option ℚ) :=
  emaGo (2 / ((n : ℚ) + 1)) none vals

/-- Recursive worker of `donchian_high`. -/
def donHiGo (n : ℕ) (q : List (Option ℚ)) : List (Option ℚ) → List (Option ℚ)
  | [] => []
  | x :: rest =>
      let q2 := windowPush n q x
      let valid := q2.filterMap id
      (if valid.length = n then valid.max? else none) :: donHiGo n q2 rest

/-- Donchian channel high (`donchian_high`): rolling `n`-bar maximum. -/
def donchian_high (prices : List (Option ℚ)) (n : ℕ) : List (Option ℚ) :=
  donHiGo n [] prices

/-- Recursive worker of `donchian_low`. -/
def donLoGo (n : ℕ) (q : List (Option ℚ)) : List (Option ℚ) → List (Option ℚ)
  | [] => []
  | x :: rest =>
      let q2 := windowPush n q x
      let valid := q2.filterMap id
      (if valid.length = n then valid.min? else none) :: donLoGo n q2 rest

/-- Donchian channel low (`donchian_low`): rolling `n`-bar minimum. -/
def donchian_low (prices : List (Option ℚ)) (n : ℕ) : List (Option ℚ) :=
  donLoGo n [] prices

/-- Recursive worker of `true_range`, carrying the previous close. -/
def trGo (prevC : Option ℚ) :
    List (Option ℚ × Option ℚ × Option ℚ) → List (Option ℚ)
  | [] => []
  | (hi, lo, cl) :: rest =>
      match hi, lo, cl with
      | some hv, some lv, some cv =>
          let trs := match prevC with
            | none => hv - lv
            | some pc => max (hv - lv) (max |hv - pc| |lv - pc|)
          some trs :: trGo (some cv) rest
      | _, _, _ =>
          none :: trGo (match cl with | some cv => some cv | none => prevC) rest

/-- Three-way zip used to feed `true_range`. -/
def zip3 : List (Option ℚ) → List (Option ℚ) → List (Option ℚ) →
    List (Option ℚ × Option ℚ × Option ℚ)
  | h :: hs, l :: ls, c :: cs => (h, l, c) :: zip3 hs ls cs
  | _, _, _ => []

/-- True range (`true_range`): `max(high − low, |high − prevclose|,
|low − prevclose|)`, with the close-based terms skipped before the first
close is seen. -/
def true_range (h l c : List (Option ℚ)) : List (Option ℚ) :=
  trGo none (zip3 h l c)

/-- Average true range (`atr`): an EMA of the true range. -/
def atr (h l c : List (Option ℚ)) (n : ℕ) : List (Option ℚ) :=
  ema (true_range h l c) n

/-- Cross-sectional z-score (`zscore`) with population mean/variance;
all-null input maps to nulls, zero deviation maps values to `0`. -/
def zscore (values : List (Option ℚ)) : List (Option ℚ) :=
  let arr := values.filterMap id
  if arr = [] then values.map (fun _ => none)
  else
    let m := arr.sum / (arr.length : ℚ)
    let var := (arr.map (fun x => (x - m) ^ 2)).sum / (arr.length : ℚ)
    let sd := ratSqrt var
    if sd = 0 then
      values.map (fun x => match x with | some _ => some 0 | none => none)
    else
      values.map (fun x => x.map (fun v => (v - m) / sd))

/-- Windowed ratio-return `close[i]/close[i−L] − 1` (used for `ret_L`,
`momL1`, `momL2`): null if the window reaches before the first bar or the
divisor close is zero. -/
def retWindow (c : List ℚ) (L : ℕ) : List (Option ℚ) :=
  (List.range c.length).map fun i =>
    if L ≤ i then
      let cj := c.getD (i - L) 0
      if cj ≠ 0 then some (c.getD i 0 / cj - 1) else none
    else none

/-- Momentum 1: `close/SMA − 1`, null when the SMA is null or zero. -/
def momFromSma (c : List ℚ) (s : List (Option ℚ)) : List (Option ℚ) :=
  (List.range c.length).map fun i =>
    match s.getD i none with
    | none => none
    | some sv => if sv = 0 then none else some (c.getD i 0 / sv - 1)

/-- Momentum 2: `EMA_fast/EMA_slow − 1`, null when either EMA is null or
the slow EMA is zero. -/
def momFromEmas (ef es : List (Option ℚ)) : List (Option ℚ) :=
  (List.range ef.length).map fun i =>
    match ef.getD i none, es.getD i none with
    | some a, some b => if b = 0 then none else some (a / b - 1)
    | _, _ => none

/-- Per-symbol indicator arrays precomputed by `Engine.run` (the
`features[s]` dict). -/
structure FeatureSet where
  ret_L : List (Option ℚ)
  mom1 : List (Option ℚ)
  mom2 : List (Option ℚ)
  don_hi : List (Option ℚ)
  don_lo : List (Option ℚ)
  atrs : List (Option ℚ)
  momL1 : List (Option ℚ)
  momL2 : List (Option ℚ)

/-- Empty feature set (used as a lookup default; the engine only looks up
symbols that are keys of the data map). -/
def emptyFeatures : FeatureSet := ⟨[], [], [], [], [], [], [], []⟩

/-- Feature precomputation for one symbol (`Engine.run`, feature block). -/
def computeFeatures (cfg : Config) (bars : List Bar) : FeatureSet :=
  let c := bars.map Bar.c
  let co := c.map some
  let h := (bars.map Bar.h).map some
  let l := (bars.map Bar.l).map some
  let sma_v := sma co cfg.lookback_sma
  let ema_f := ema co cfg.ema_fast
  let ema_s := ema co cfg.ema_slow
  { ret_L := retWindow c cfg.L_ret
    mom1 := momFromSma c sma_v
    mom2 := momFromEmas ema_f ema_s
    don_hi := donchian_high co cfg.donchian_n
    don_lo := donchian_low co cfg.donchian_n
    atrs := atr h l co cfg.atr_n
    momL1 := retWindow c (max 1 cfg.pool_mom_L1)
    momL2 := retWindow c (max 1 cfg.pool_mom_L2) }

/-- Market-benchmark return series (`m_ret_series`): per benchmark bar,
the `market_L`-window return, when the market filter is enabled and the
benchmark symbol is present in the data. -/
def marketSeries (cfg : Config) (data : List (String × List Bar)) :
    List (ℤ × Option ℚ) :=
  if cfg.market_filter then
    match alGetOpt data cfg.market_symbol with
    | some mBars =>
        let mClose := mBars.map Bar.c
        (List.range mBars.length).map fun i =>
          ((mBars.getD i default).ts,
            if cfg.market_L ≤ i then
              let cj := mClose.getD (i - cfg.market_L) 0
              if cj ≠ 0 then some (mClose.getD i 0 / cj - 1) else none
            else none)
    | none => []
  else []

/-- Immutable per-run context: configuration, input bars, precomputed
features and precomputed market series. -/
structure Ctx where
  cfg : Config
  data : List (String × List Bar)
  feats : List (String × FeatureSet)
  mseries : List (ℤ × Option ℚ)

/-- Feature lookup for a symbol of the data map. -/
def ctxFeat (ctx : Ctx) (s : String) : FeatureSet := alGet ctx.feats s emptyFeatures

/-- The whole mutable state of one simulation: the `Engine` attributes
(`cash`, `trades`, `position`, `equity_curve`) together with the local
state of `Engine.run`'s main loop (cursors, current bars, time-stop and
cooldown counters, last rebalance step, market-pointer state).  The
source's `self.equity` and `self._last_mtm` attributes are write-only
(assigned, never read) and are therefore not part of the state. -/
structure SimState where
  cash : ℚ
  trades : List Trade
  position : List (String × Position)
  equity_curve : List (ℤ × ℚ)
  idx : List (String × ℕ)
  curBar : List (String × Option Bar)
  bse : List (String × ℤ)
  cooldown : List (String × ℤ)
  lastRebalance : ℤ
  mktRest : List (ℤ × Option ℚ)
  mktCur : Option ℚ

/-- Mark-to-market equity (`Engine._compute_mtm`): cash plus, for each
open position whose symbol has a current bar, `side·qty·(close − entry)`. -/
def computeMtm (curBar : List (String × Option Bar)) (cash : ℚ)
    (position : List (String × Position)) : ℚ :=
  position.foldl (fun (acc : ℚ) p =>
    match alGet curBar p.1 none with
    | none => acc
    | some b =>
        acc + (if (0 : ℤ) < p.2.side then (1 : ℚ) else -1) * p.2.qty * (b.c - p.2.entry_price))
    cash

/-- Current gross notional exposure: `Σ |qty·close|` over open positions
whose symbol has a current bar (the `exposure_cur` sums in `Engine.run`). -/
def exposureSum (curBar : List (String × Option Bar))
    (position : List (String × Position)) : ℚ :=
  position.foldl (fun (acc : ℚ) p =>
    match alGet curBar p.1 none with
    | none => acc
    | some b => acc + |p.2.qty * b.c|) 0

/-- Closing a position (`Engine._exit_position`): apply exit slippage,
charge fees on accumulated entry notional plus exit notional, realize the
pnl into cash, append the `Trade`, and delete the position.  A missing
position or missing bar is a silent no-op, as in the source. -/
def exitPosition (cfg : Config) (st : SimState) (symbol : String)
    (bar : Option Bar) (reason : String) : SimState :=
  match alGetOpt st.position symbol, bar with
  | some pos, some b =>
      let slip := bpsToPrice b.c cfg.slippage_bps
      let exit_price := b.c - (if 0 < pos.side then slip else -slip)
      let dir : ℚ := if 0 < pos.side then 1 else -1
      let gross := dir * pos.qty * (exit_price - pos.entry_price)
      let notional_entry :=
        if pos.acc_entry_notional ≠ 0 then pos.acc_entry_notional
        else |pos.qty * pos.entry_price|
      let notional_exit := |pos.qty * exit_price|
      let fees := cfg.fee_rate * (notional_entry + notional_exit)
      let pnl := gross - fees
      let base_pct := pnl / max notional_entry eps
      let pnl_pct :=
        if cfg.roi_mode = "margin" then base_pct * cfg.report_leverage
        else if cfg.roi_mode = "equity" then pnl / max pos.equity_entry eps
        else base_pct
      let t : Trade :=
        { symbol := pos.symbol
          side := if 0 < pos.side then "long" else "short"
          entry_ts := pos.entry_ts
          entry_price := pos.entry_price
          exit_ts := b.ts
          exit_price := exit_price
          qty := pos.qty
          pnl := pnl
          pnl_pct := pnl_pct
          fees := fees
          reason := reason
          equity_entry := pos.equity_entry
          exposure_notional := pos.exposure_notional
          exposure_frac := pos.exposure_frac
          adds_done := pos.adds_done }
      { st with cash := st.cash + pnl
                trades := st.trades ++ [t]
                position := alErase st.position symbol }
  | _, _ => st

/-- Cursor advance for one symbol (the inner `while` of `Engine.run`):
consume every bar with timestamp at or before `ts`, remembering the index
of the next unconsumed bar and the latest consumed bar. -/
def advGo (ts : ℤ) : List Bar → ℕ → Option Bar → ℕ × Option Bar
  | [], i, cur => (i, cur)
  | b :: rest, i, cur =>
      if b.ts ≤ ts then advGo ts rest (i + 1) (some b) else (i, cur)

/-- Per-symbol step of the bar-advance phase: advance the cursor to `ts`
and, when the symbol holds an open position and has a current bar, bump
its `bars_since_entry` counter. -/
def advSym (ts : ℤ) (st : SimState) (p : String × List Bar) : SimState :=
  let s := p.1
  let i0 := alGet st.idx s 0
  let a := advGo ts (p.2.drop i0) i0 (alGet st.curBar s none)
  let st1 := { st with idx := alSet st.idx s a.1, curBar := alSet st.curBar s a.2 }
  if (alGetOpt st1.position s).isSome ∧ a.2.isSome then
    { st1 with bse := alSet st1.bse s (alGet st1.bse s 0 + 1) }
  else st1

/-- Bar-advance phase: advance every symbol of the data map in order. -/
def stepAdvance (ctx : Ctx) (st : SimState) (ts : ℤ) : SimState :=
  ctx.data.foldl (advSym ts) st

/-- Market-pointer advance (`while m_ptr < len ... <= ts`). -/
def mktGo (ts : ℤ) : List (ℤ × Option ℚ) → Option ℚ →
    List (ℤ × Option ℚ) × Option ℚ
  | [], cur => ([], cur)
  | (t, r) :: rest, cur =>
      if t ≤ ts then mktGo ts rest r else ((t, r) :: rest, cur)

/-- Trailing / breakeven / lock stop update for one open position at the
current bar (`Engine.run`, stop-management block).  `atr_i` is the current
ATR already coerced through `or 0.0`. -/
def stopUpdate (cfg : Config) (pos : Position) (b : Bar) (atr_i : ℚ) : Position :=
  if 0 < pos.side then
    let mf := max pos.max_fav_price b.h
    let trail := mf - cfg.m2_trail_sl_atr * atr_i
    let t1 := max pos.trail_stop trail
    let t2 :=
      if cfg.be_after_adds ≤ (pos.adds_done : ℤ) ∧ 0 < atr_i ∧
          cfg.be_rr * pos.atr_mult * atr_i ≤ b.c - pos.entry_price then
        max t1 pos.entry_price
      else t1
    let t3 :=
      if cfg.lock_after_adds ≤ (pos.adds_done : ℤ) ∧ 0 < atr_i ∧
          pos.last_add_price ≠ 0 then
        max t2 (pos.last_add_price - cfg.lock_atr_mult * atr_i)
      else t2
    { pos with max_fav_price := mf, trail_stop := t3 }
  else
    let mf := min pos.max_fav_price b.l
    let trail := mf + cfg.m2_trail_sl_atr * atr_i
    let t1 := min pos.trail_stop trail
    let t2 :=
      if cfg.be_after_adds ≤ (pos.adds_done : ℤ) ∧ 0 < atr_i ∧
          cfg.be_rr * pos.atr_mult * atr_i ≤ pos.entry_price - b.c then
        min t1 pos.entry_price
      else t1
    let t3 :=
      if cfg.lock_after_adds ≤ (pos.adds_done : ℤ) ∧ 0 < atr_i ∧
          pos.last_add_price ≠ 0 then
        min t2 (pos.last_add_price + cfg.lock_atr_mult * atr_i)
      else t2
    { pos with max_fav_price := mf, trail_stop := t3 }

/-- Exit test applied right after the stop update: intrabar stop breach
first, else time stop. -/
def exitCheck (cfg : Config) (pos : Position) (b : Bar) (bseS : ℤ) :
    Option String :=
  if 0 < pos.side then
    if b.l ≤ pos.trail_stop then some "trail_stop"
    else if cfg.time_stop_bars ≤ bseS then some "time_stop"
    else none
  else
    if pos.trail_stop ≤ b.h then some "trail_stop"
    else if cfg.time_stop_bars ≤ bseS then some "time_stop"
    else none

/-- One iteration of the stop-management loop: update the stops of one
position in the map and record an exit reason when one triggers. -/
def stopOne (ctx : Ctx) (acc : SimState × List (String × String))
    (p : String × Position) : SimState × List (String × String) :=
  let st := acc.1
  let s := p.1
  match alGet st.curBar s none with
  | none => acc
  | some b =>
      let i := alGet st.idx s 0 - 1
      let atr_i := orZero ((ctxFeat ctx s).atrs.getD i none)
      let pos1 := stopUpdate ctx.cfg p.2 b atr_i
      let st1 := { st with position := alSet st.position s pos1 }
      match exitCheck ctx.cfg pos1 b (alGet st.bse s 0) with
      | some r => (st1, acc.2 ++ [(s, r)])
      | none => (st1, acc.2)

/-- Stop-management phase over a snapshot of the position map, returning
the updated state and the `to_close` list. -/
def stopPhase (ctx : Ctx) (st : SimState) :
    SimState × List (String × String) :=
  st.position.foldl (stopOne ctx) (st, [])

/-- Processing of one `to_close` entry: exit the position, set the
cooldown counter when the just-closed trade lost money, and drop the
symbol's `bars_since_entry` counter. -/
def closeOne (cfg : Config) (st : SimState) (p : String × String) : SimState :=
  let s := p.1
  let st1 := exitPosition cfg st s (alGet st.curBar s none) p.2
  let st2 :=
    match st1.trades.getLast? with
    | some t =>
        if t.symbol = s ∧ t.pnl < 0 then
          let cd := alSet st1.cooldown s (max (alGet st1.cooldown s 0) cfg.cooldown_bars)
          { st1 with cooldown := cd }
        else st1
    | none => st1
  { st2 with bse := alErase st2.bse s }

/-- Close phase: process the `to_close` list in order. -/
def closePhase (cfg : Config) (st : SimState)
    (tc : List (String × String)) : SimState :=
  tc.foldl (closeOne cfg) st

/-- Fresh-entry sizing decision (`Engine.run`, entry block): risk-based
quantity from the initial-stop distance, then clipping against the
per-symbol cap and the remaining leverage headroom.  Returns
`(final_notional, qty)`, or `none` when the entry is skipped. -/
def entrySize (cfg : Config) (mtm_now exposure_cur price atr_v : ℚ) :
    Option (ℚ × ℚ) :=
  let stop_dist := cfg.m1_init_sl_atr * atr_v
  let risk_amount := mtm_now * cfg.risk_per_trade
  if risk_amount ≤ 0 then none
  else
    let qty0 := risk_amount / max stop_dist eps
    let total_cap := cfg.max_actual_leverage * mtm_now
    let headroom := max 0 (total_cap - exposure_cur)
    let notional_risk := |qty0 * price|
    let min_notional :=
      if 0 < cfg.min_actual_leverage then cfg.min_actual_leverage * mtm_now else 0
    let desired_notional := max notional_risk min_notional
    let per_symbol_cap := cfg.per_symbol_exposure_max * mtm_now
    let allowed_notional := min per_symbol_cap headroom
    if allowed_notional ≤ 0 then none
    else
      let final_notional := min desired_notional allowed_notional
      if final_notional ≤ 0 then none
      else some (final_notional, final_notional / max price eps)

/-- Pyramid-add sizing decision (`Engine.run`, pyramid block): risk amount
scaled by the add-number multiplier, clipped against the remaining
leverage headroom and the per-symbol cap net of the position's current
notional.  Returns `(final_notional, add_qty)` or `none` when skipped. -/
def addSize (cfg : Config) (mtm_now exposure_cur pos_qty : ℚ)
    (adds_done : ℕ) (price atr_v : ℚ) : Option (ℚ × ℚ) :=
  let total_cap := cfg.max_actual_leverage * mtm_now
  let headroom := max 0 (total_cap - exposure_cur)
  let per_symbol_cap := cfg.per_symbol_exposure_max * mtm_now
  let mult_list :=
    if cfg.pyramid_risk_multipliers = [] then [1] else cfg.pyramid_risk_multipliers
  let mult := mult_list.getD (min adds_done (mult_list.length - 1)) 1
  let risk_amount := mtm_now * cfg.risk_per_trade * mult
  let stop_dist := cfg.m1_init_sl_atr * atr_v
  if risk_amount ≤ 0 ∨ stop_dist ≤ 0 then none
  else
    let base_qty := risk_amount / stop_dist
    let add_notional := |base_qty * price|
    let min_notional :=
      if 0 < cfg.min_actual_leverage then cfg.min_actual_leverage * mtm_now else 0
    let desired_notional := max add_notional (min_notional - exposure_cur)
    let allowed := min headroom (per_symbol_cap - |pos_qty * price|)
    if allowed ≤ 0 then none
    else
      let final_notional := min desired_notional allowed
      if final_notional ≤ 0 then none
      else some (final_notional, final_notional / max price eps)

/-- Mutation of a position by an executed pyramid add: re-weight the
average entry price, grow the quantity, refresh the exposure fields and
the add bookkeeping.  The stops (`init_stop`, `trail_stop`) are untouched. -/
def applyAdd (pos : Position) (add_qty add_price mtm_now : ℚ) : Position :=
  let new_qty := pos.qty + add_qty
  { pos with
      entry_price := (pos.entry_price * pos.qty + add_price * add_qty) / new_qty
      qty := new_qty
      exposure_notional := |new_qty * add_price|
      exposure_frac := |new_qty * add_price| / max mtm_now eps
      adds_done := pos.adds_done + 1
      last_add_price := add_price
      acc_entry_notional := pos.acc_entry_notional + |add_qty * add_price| }

/-- Pyramid-add attempt for one open position (`Engine.run`, pyramid
block): direction/breakout/step gates, then `addSize`, then `applyAdd`. -/
def tryAdd (ctx : Ctx) (st : SimState) (s : String) : SimState :=
  match alGetOpt st.position s with
  | none => st
  | some pos =>
      if ctx.cfg.pyramid_max_adds ≤ (pos.adds_done : ℤ) then st
      else
        match alGet st.curBar s none with
        | none => st
        | some b =>
            let f := ctxFeat ctx s
            let i := alGet st.idx s 0 - 1
            let atr_v := orZero (f.atrs.getD i none)
            if atr_v ≤ 0 then st
            else
              let don_hi := f.don_hi.getD i none
              let don_lo := f.don_lo.getD i none
              match f.ret_L.getD i none with
              | none => st
              | some rv =>
                  let want_long := decide (0 < pos.side) && decide (ctx.cfg.theta_ret < rv) &&
                    (match don_hi with | some dh => decide (dh ≤ b.c) | none => false)
                  let want_short := decide (pos.side < 0) && decide (rv < -ctx.cfg.theta_ret) &&
                    (match don_lo with | some dl => decide (b.c ≤ dl) | none => false)
                  if ¬(want_long || want_short) then st
                  else
                    let lap := if pos.last_add_price = 0 then pos.entry_price
                               else pos.last_add_price
                    let step_ok :=
                      (decide (0 < pos.side) && decide (lap + ctx.cfg.pyramid_step_atr * atr_v ≤ b.c)) ||
                      (decide (pos.side < 0) && decide (b.c ≤ lap - ctx.cfg.pyramid_step_atr * atr_v))
                    if ¬step_ok then st
                    else
                      let mtm_now := computeMtm st.curBar st.cash st.position
                      let exposure_cur := exposureSum st.curBar st.position
                      match addSize ctx.cfg mtm_now exposure_cur pos.qty
                          pos.adds_done b.c atr_v with
                      | none => st
                      | some fq =>
                          let slip := bpsToPrice b.c ctx.cfg.slippage_bps
                          let add_price := b.c + (if 0 < pos.side then slip else -slip)
                          if pos.qty + fq.2 ≤ 0 then st
                          else
                            let pos1 := applyAdd pos fq.2 add_price mtm_now
                            { st with position := alSet st.position s pos1 }

/-- Symbols with a current bar and non-null `mom1`/`mom2` at this tick,
with their current bar index and momentum values (`val_syms`/`val_idx`). -/
def mkValList (ctx : Ctx) (st : SimState) : List (String × ℕ × ℚ × ℚ) :=
  ctx.data.filterMap fun p =>
    let s := p.1
    let i := alGet st.idx s 0 - 1
    match alGet st.curBar s none with
    | none => none
    | some _ =>
        let f := ctxFeat ctx s
        match f.mom1.getD i none, f.mom2.getD i none with
        | some m1, some m2 => some (s, i, m1, m2)
        | _, _ => none

/-- Stable descending insertion by a rational key (the behaviour of
Python's stable `sort(key=..., reverse=True)`): an element is placed after
every earlier element whose key is at least as large. -/
def insertDescBy {α : Type} (key : α → ℚ) (x : α) : List α → List α
  | [] => [x]
  | y :: ys => if key x ≤ key y then y :: insertDescBy key x ys else x :: y :: ys

/-- Stable descending sort by a rational key. -/
def sortDescBy {α : Type} (key : α → ℚ) (l : List α) : List α :=
  l.foldl (fun acc x => insertDescBy key x acc) []

/-- Candidate pool (`pool_set`): the top `max 1 pool_size` symbols by
`momL1 + momL2` (nulls contributing zero), stable-sorted descending. -/
def mkPoolSet (ctx : Ctx) (valList : List (String × ℕ × ℚ × ℚ)) : List String :=
  let scores := valList.map fun q =>
    let f := ctxFeat ctx q.1
    (q.1, (f.momL1.getD q.2.1 none).getD 0 + (f.momL2.getD q.2.1 none).getD 0)
  let sorted := sortDescBy (fun p => p.2) scores
  (sorted.take (max 1 ctx.cfg.pool_size).toNat).map Prod.fst

/-- Candidate construction (`Engine.run`, candidate block): walk the
valid symbols with their z-scores, apply pool membership, cooldown, the
market filter and the long/short eligibility gates, and emit
`(symbol, side, score)` triples in scan order. -/
def candGo (ctx : Ctx) (poolSet : List String) (cd : List (String × ℤ))
    (curBar : List (String × Option Bar)) (mktCur : Option ℚ) :
    List (String × ℕ × ℚ × ℚ) → List (Option ℚ) → List (Option ℚ) →
      List (String × ℤ × ℚ)
  | [], _, _ => []
  | _ :: _, [], _ => []
  | _ :: _, _ :: _, [] => []
  | q :: vt, z1v :: z1t, z2v :: z2t =>
      let rest := candGo ctx poolSet cd curBar mktCur vt z1t z2t
      let s := q.1
      if ¬(poolSet.contains s) || decide (0 < alGet cd s 0) then rest
      else
        match alGet curBar s none with
        | none => rest
        | some b =>
            let f := ctxFeat ctx s
            let i := q.2.1
            match f.ret_L.getD i none with
            | none => rest
            | some rv =>
                let score := z1v.getD 0 + z2v.getD 0
                let m1 := f.mom1.getD i none
                let m2 := f.mom2.getD i none
                let mktActive := !ctx.mseries.isEmpty
                let mktSkip := mktActive &&
                  (match mktCur with
                   | none => true
                   | some mv => decide (|mv| < ctx.cfg.market_theta))
                if mktSkip then rest
                else
                  let gate_long :=
                    !ctx.cfg.momentum_gate ||
                      (match m1, m2 with
                       | some a, some b2 => decide (0 < a) && decide (0 < b2)
                       | _, _ => false)
                  let gate_short :=
                    !ctx.cfg.momentum_gate ||
                      (match m1, m2 with
                       | some a, some b2 => decide (a < 0) && decide (b2 < 0)
                       | _, _ => false)
                  let don_hi := f.don_hi.getD i none
                  let don_lo := f.don_lo.getD i none
                  let long_ok0 := ctx.cfg.allow_long &&
                    decide (ctx.cfg.theta_ret < rv) &&
                    (match don_hi with | some dh => decide (dh ≤ b.c) | none => false) &&
                    gate_long &&
                    (decide (ctx.cfg.z_score_thresh ≤ 0) ||
                      decide (ctx.cfg.z_score_thresh ≤ score))
                  let long_ok :=
                    if mktActive && long_ok0 then
                      long_ok0 &&
                        (match mktCur with
                         | some mv => decide (ctx.cfg.market_theta < mv)
                         | none => false)
                    else long_ok0
                  let short_ok0 := ctx.cfg.allow_short &&
                    decide (rv < -ctx.cfg.theta_ret) &&
                    (match don_lo with | some dl => decide (b.c ≤ dl) | none => false) &&
                    gate_short &&
                    (decide (ctx.cfg.z_score_thresh ≤ 0) ||
                      decide (ctx.cfg.z_score_thresh ≤ -score))
                  let short_ok :=
                    if mktActive && short_ok0 then
                      short_ok0 &&
                        (match mktCur with
                         | some mv => decide (mv < -ctx.cfg.market_theta)
                         | none => false)
                    else short_ok0
                  if long_ok then (s, 1, score) :: rest
                  else if short_ok then (s, -1, -score) :: rest
                  else rest

/-- Cooldown decay at a rebalance tick: drop exhausted counters, subtract
one from the rest (iteration order preserved). -/
def cooldownDecay (cd : List (String × ℤ)) : List (String × ℤ) :=
  cd.filterMap fun kv => if kv.2 ≤ 0 then none else some (kv.1, kv.2 - 1)

/-- Alignment check for one open position: when the current `ret_L` sign
disagrees with the position's side, close it with reason
`alignment_lost` and forget its time-stop counter. -/
def alignOne (ctx : Ctx) (st : SimState) (p : String × Position) : SimState :=
  let s := p.1
  let i := alGet st.idx s 0 - 1
  match (ctxFeat ctx s).ret_L.getD i none with
  | none => st
  | some rv =>
      if (0 < p.2.side ∧ rv < 0) ∨ (p.2.side < 0 ∧ 0 < rv) then
        let st1 := exitPosition ctx.cfg st s (alGet st.curBar s none) "alignment_lost"
        { st1 with bse := alErase st1.bse s }
      else st

/-- Alignment-exit phase over a snapshot of the position map. -/
def alignPhase (ctx : Ctx) (st : SimState) : SimState :=
  st.position.foldl (alignOne ctx) st

/-- Entry loop over the ranked candidates (`Engine.run`, entry block):
stops outright once `top_k` positions are held, skips symbols already
held, without a bar, or with nonpositive ATR, sizes through `entrySize`,
and opens the position with entry slippage and the initial stop. -/
def entriesGo (ctx : Ctx) (st : SimState) : List (String × ℤ × ℚ) → SimState
  | [] => st
  | (s, side, _) :: rest =>
      if ctx.cfg.top_k ≤ (st.position.length : ℤ) then st
      else if (alGetOpt st.position s).isSome then entriesGo ctx st rest
      else
        match alGet st.curBar s none with
        | none => entriesGo ctx st rest
        | some b =>
            let f := ctxFeat ctx s
            let i := alGet st.idx s 0 - 1
            let atr_v := orZero (f.atrs.getD i none)
            if atr_v ≤ 0 then entriesGo ctx st rest
            else
              let stop_dist := ctx.cfg.m1_init_sl_atr * atr_v
              let mtm_now := computeMtm st.curBar st.cash st.position
              let exposure_cur := exposureSum st.curBar st.position
              match entrySize ctx.cfg mtm_now exposure_cur b.c atr_v with
              | none => entriesGo ctx st rest
              | some fq =>
                  let slip := bpsToPrice b.c ctx.cfg.slippage_bps
                  let entry_price := b.c + (if 0 < side then slip else -slip)
                  let init_stop := entry_price - (side : ℚ) * stop_dist
                  let max_fav := if 0 < side then b.h else b.l
                  let exposure_notional := |fq.2 * entry_price|
                  let pos : Position :=
                    { symbol := s
                      side := side
                      entry_ts := b.ts
                      entry_price := entry_price
                      qty := fq.2
                      init_stop := init_stop
                      trail_stop := init_stop
                      atr_mult := ctx.cfg.m1_init_sl_atr
                      max_fav_price := max_fav
                      reason := "entry"
                      equity_entry := mtm_now
                      exposure_notional := exposure_notional
                      exposure_frac := exposure_notional / max mtm_now eps
                      adds_done := 0
                      last_add_price := entry_price
                      acc_entry_notional := exposure_notional
                      init_stop_dist := stop_dist }
                  let st1 := { st with position := alSet st.position s pos
                                       bse := alSet st.bse s 0 }
                  entriesGo ctx st1 rest

/-- Rebalance tick (`Engine.run`, rebalance block): record the step,
compute the cross-sectional z-scores, decay cooldowns, build the pool and
the ranked candidate list, exit misaligned positions, attempt pyramid
adds over a snapshot of the surviving positions, and finally open ranked
candidates up to `top_k`. -/
def rebalancePhase (ctx : Ctx) (st0 : SimState) (step : ℤ) : SimState :=
  let st1 := { st0 with lastRebalance := step }
  let valList := mkValList ctx st1
  let z1 := zscore (valList.map fun q => some q.2.2.1)
  let z2 := zscore (valList.map fun q => some q.2.2.2)
  let cd := cooldownDecay st1.cooldown
  let st2 := { st1 with cooldown := cd }
  let poolSet := mkPoolSet ctx valList
  let cands := sortDescBy (fun c => c.2.2)
    (candGo ctx poolSet cd st2.curBar st2.mktCur valList z1 z2)
  let st3 := alignPhase ctx st2
  let st4 := st3.position.foldl (fun s2 p => tryAdd ctx s2 p.1) st3
  entriesGo ctx st4 cands

/-- Market-pointer phase as a state update. -/
def stepMkt (st : SimState) (ts : ℤ) : SimState :=
  let mk := mktGo ts st.mktRest st.mktCur
  { st with mktRest := mk.1, mktCur := mk.2 }

/-- Stop-management followed by exit processing. -/
def stepStops (ctx : Ctx) (st : SimState) : SimState :=
  closePhase ctx.cfg (stopPhase ctx st).1 (stopPhase ctx st).2

/-- One step of the main loop before the equity-curve record: advance
bars and the market pointer, update stops and collect exits, process the
exits, and rebalance when the cadence triggers. -/
def runStepCore (ctx : Ctx) (st0 : SimState) (step : ℕ) (ts : ℤ) : SimState :=
  let st3 := stepStops ctx (stepMkt (stepAdvance ctx st0 ts) ts)
  if ctx.cfg.rebalance_every ≤ (step : ℤ) - st3.lastRebalance then
    rebalancePhase ctx st3 step
  else st3

/-- One full step of the main loop: `runStepCore`, then append the
mark-to-market equity record for this timestamp. -/
def runStep (ctx : Ctx) (st : SimState) (p : ℕ × ℤ) : SimState :=
  let stD := runStepCore ctx st p.1 p.2
  { stD with equity_curve :=
      stD.equity_curve ++ [(p.2, computeMtm stD.curBar stD.cash stD.position)] }

/-- Ascending duplicate-free insertion (used to build the global
timestamp axis `sorted(set(...))`). -/
def insertTs (t : ℤ) : List ℤ → List ℤ
  | [] => [t]
  | x :: xs =>
      if t < x then t :: x :: xs
      else if t = x then x :: xs
      else x :: insertTs t xs

/-- Global timestamp axis: the sorted deduplicated union of every
symbol's bar timestamps. -/
def allTimestamps (data : List (String × List Bar)) : List ℤ :=
  (data.foldr (fun p acc => p.2.map Bar.ts ++ acc) []).foldl
    (fun acc t => insertTs t acc) []

/-- Context construction (`Engine.run` preamble): features and market
series are precomputed once per run. -/
def mkCtx (data : List (String × List Bar)) (cfg : Config) : Ctx :=
  { cfg := cfg
    data := data
    feats := data.map fun p => (p.1, computeFeatures cfg p.2)
    mseries := marketSeries cfg data }

/-- Initial engine state (`Engine.__init__` plus the loop-local
initialisations of `Engine.run`). -/
def initState (ctx : Ctx) : SimState :=
  { cash := ctx.cfg.initial_equity
    trades := []
    position := []
    equity_curve := []
    idx := ctx.data.map fun p => (p.1, 0)
    curBar := ctx.data.map fun p => (p.1, none)
    bse := []
    cooldown := []
    lastRebalance := -(10 ^ 9)
    mktRest := ctx.mseries
    mktCur := none }

/-- End-of-data liquidation: force-close every remaining position at its
last available bar with reason `eod`. -/
def eodPhase (cfg : Config) (st : SimState) : SimState :=
  (st.position.map Prod.fst).foldl
    (fun s2 s => exitPosition cfg s2 s (alGet s2.curBar s none) "eod") st

/-- The whole simulation (`Engine.__init__` followed by `Engine.run`): a
pure function of the input bars and the configuration. -/
def run (data : List (String × List Bar)) (cfg : Config) : SimState :=
  let ctx := mkCtx data cfg
  let stEnd := (allTimestamps data).enum.foldl (runStep ctx) (initState ctx)
  eodPhase cfg stEnd

/-- Total realized pnl of a trade list. -/
def sumPnl (ts : List Trade) : ℚ := (ts.map Trade.pnl).sum

/-- Specification-side unrealized pnl: the sum, over open positions whose
symbol has a current bar, of `side·qty·(current close − entry_price)`. -/
def unrealizedSum (position : List (String × Position))
    (curBar : List (String × Option Bar)) : ℚ :=
  (position.map fun p =>
    match alGet curBar p.1 none with
    | none => (0 : ℚ)
    | some b =>
        (if (0 : ℤ) < p.2.side then (1 : ℚ) else -1) * p.2.qty *
          (b.c - p.2.entry_price)).sum

/-- Small test configuration: one-bar windows, zero threshold, rebalance
every step, no fees or slippage, unit ATR stop multiple, pyramiding and
breakeven/lock disabled. -/
def cfgT : Config :=
  { L_ret := 1
    lookback_sma := 1
    ema_fast := 1
    ema_slow := 1
    donchian_n := 1
    atr_n := 1
    theta_ret := 0
    rebalance_every := 1
    top_k := 5
    risk_per_trade := 1 / 100
    max_actual_leverage := 1
    per_symbol_exposure_max := 1 / 5
    min_actual_leverage := 0
    fee_rate := 0
    slippage_bps := 0
    m1_init_sl_atr := 1
    m2_trail_sl_atr := 2
    time_stop_bars := 100
    initial_equity := 10000
    allow_long := true
    allow_short := true
    market_filter := false
    momentum_gate := false
    z_score_thresh := 0
    pyramid_max_adds := 0
    pyramid_step_atr := 1
    pyramid_risk_multipliers := [1]
    be_after_adds := 99
    be_rr := 1
    lock_after_adds := 99
    lock_atr_mult := 1
    pool_size := 12
    pool_mom_L1 := 1
    pool_mom_L2 := 1
    cooldown_bars := 24
    roi_mode := "notional"
    report_leverage := 10 }

/-- Three bars of one symbol: an uptrend bar that triggers a long entry at
close 102, followed by a perfectly flat doji bar (high = low = close =
previous close), whose true range — and hence one-bar ATR — is zero. -/
def dataA : List (String × List Bar) :=
  [("A", [⟨0, 100, 101, 99, 100, 1⟩, ⟨1, 100, 102, 100, 102, 1⟩,
          ⟨2, 102, 102, 102, 102, 1⟩])]

/-- Four bars of one symbol: a long entry at close 102 on bar 1, a losing
down bar at close 100 on bar 2 (alignment lost), and a fresh breakout bar
at close 104 on bar 3. -/
def dataB : List (String × List Bar) :=
  [("A", [⟨0, 100, 101, 99, 100, 1⟩, ⟨1, 100, 103, 100, 102, 1⟩,
          ⟨2, 101, 101, 100, 100, 1⟩, ⟨3, 100, 104, 100, 104, 1⟩])]

/-- Config for the cooldown scenario: shorts disabled so the losing
alignment exit cannot be followed by a same-tick short entry. -/
def cfgB : Config := { cfgT with allow_short := false }

/-- Two symbols: "A" has bars only at timestamps 0..2 (entering long at
timestamp 1), while "C" is flat and supplies the global timestamps 0..6,
so "A" sits in a data gap from timestamp 3 on. -/
def dataG : List (String × List Bar) :=
  [("A", [⟨0, 100, 101, 99, 100, 1⟩, ⟨1, 100, 103, 100, 102, 1⟩,
          ⟨2, 102, 103, 101, 102, 1⟩]),
   ("C", [⟨0, 50, 50, 50, 50, 1⟩, ⟨1, 50, 50, 50, 50, 1⟩, ⟨2, 50, 50, 50, 50, 1⟩,
          ⟨3, 50, 50, 50, 50, 1⟩, ⟨4, 50, 50, 50, 50, 1⟩, ⟨5, 50, 50, 50, 50, 1⟩,
          ⟨6, 50, 50, 50, 50, 1⟩])]

/-- Config for the data-gap scenario: the time stop fires after five
global steps in a position. -/
def cfgG : Config := { cfgT with time_stop_bars := 5 }

/-- A concrete open long position: entry 102, stop ratcheted to 100, best
price seen 103. -/
def posX : Position :=
  { symbol := "X"
    side := 1
    entry_ts := 1
    entry_price := 102
    qty := 1
    init_stop := 100
    trail_stop := 100
    atr_mult := 1
    max_fav_price := 103 }

/-- A concrete current bar for `posX`. -/
def barX : Bar := ⟨2, 102, 103, 101, 102, 1⟩

/-- A concrete open short position mirroring `posX`. -/
def posS : Position :=
  { posX with side := -1, trail_stop := 104, max_fav_price := 101 }

/-- `posX` with the entry notional accumulated (as entries always record). -/
def posW : Position := { posX with acc_entry_notional := 102 }

/-- A concrete engine state holding the single open position `posW`. -/
def stE : SimState :=
  { cash := 10000
    trades := []
    position := [("X", posW)]
    equity_curve := []
    idx := [("X", 3)]
    curBar := [("X", some barX)]
    bse := [("X", 2)]
    cooldown := []
    lastRebalance := 0
    mktRest := []
    mktCur := none }

/-- A losing current bar: close 100, below `posW`'s entry at 102. -/
def barL : Bar := ⟨2, 101, 101, 100, 100, 1⟩

/-- `stE` with the losing bar `barL` as the current bar. -/
def stL : SimState := { stE with curBar := [("X", some barL)] }

/-- The trade that closing `posW` on `barL` produces (zero fees and
slippage under `cfgT`; pnl `1·(100 − 102) = −2`). -/
def tLoss : Trade :=
  { symbol := "X"
    side := "long"
    entry_ts := 1
    entry_price := 102
    exit_ts := 2
    exit_price := 100
    qty := 1
    pnl := -2
    pnl_pct := -1 / 51
    fees := 0
    reason := "trail_stop"
    equity_entry := 0
    exposure_notional := 0
    exposure_frac := 0
    adds_done := 0 }

/-- A one-bar uptrend bar used to exhibit a concrete candidate. -/
def barU : Bar := ⟨1, 100, 102, 100, 102, 1⟩

/-- A projection preserved by every step of a fold is preserved by the
whole fold. -/
theorem foldl_pres {σ α β : Type _} (f : σ → α → σ) (g : σ → β)
    (h : ∀ s a, g (f s a) = g s) (l : List α) (s : σ) :
    g (l.foldl f s) = g s := by
  induction l generalizing s with
  | nil => rfl
  | cons a t ih => rw [List.foldl_cons, ih, h]

/-- The engine's `_compute_mtm` fold equals cash plus the
specification-side unrealized-pnl sum. -/
theorem computeMtm_eq (curBar : List (String × Option Bar)) (cash : ℚ)
    (position : List (String × Position)) :
    computeMtm curBar cash position = cash + unrealizedSum position curBar := by
  induction position generalizing cash with
  | nil => simp [computeMtm, unrealizedSum]
  | cons p ps ih =>
      rcases h : alGet curBar p.1 none with _ | b
      · have h1 : computeMtm curBar cash (p :: ps) = computeMtm curBar cash ps := by
          simp [computeMtm, h]
        rw [h1, ih]
        simp [unrealizedSum, h]
      · have h1 : computeMtm curBar cash (p :: ps) =
            computeMtm curBar
              (cash + (if (0 : ℤ) < p.2.side then (1 : ℚ) else -1) * p.2.qty *
                (b.c - p.2.entry_price)) ps := by
          simp [computeMtm, h]
        rw [h1, ih]
        simp [unrealizedSum, h]
        ring

/-- The bar-advance step touches only cursors, current bars and
`bars_since_entry`. -/
theorem advSym_frame (ts : ℤ) (st : SimState) (p : String × List Bar) :
    (advSym ts st p).cash = st.cash ∧ (advSym ts st p).trades = st.trades ∧
      (advSym ts st p).equity_curve = st.equity_curve ∧
      (advSym ts st p).position = st.position := by
  unfold advSym
  dsimp only
  split <;> exact ⟨rfl, rfl, rfl, rfl⟩

/-- The stop-update step touches only the position map. -/
theorem stopOne_frame (ctx : Ctx) (acc : SimState × List (String × String))
    (p : String × Position) :
    (stopOne ctx acc p).1.cash = acc.1.cash ∧
      (stopOne ctx acc p).1.trades = acc.1.trades ∧
      (stopOne ctx acc p).1.equity_curve = acc.1.equity_curve ∧
      (stopOne ctx acc p).1.curBar = acc.1.curBar := by
  unfold stopOne
  dsimp only
  split
  · exact ⟨rfl, rfl, rfl, rfl⟩
  · split <;> exact ⟨rfl, rfl, rfl, rfl⟩

/-- Closing a position leaves the equity curve, the current bars, the
cursors and the counters alone, and moves exactly the realized pnl of the
appended trade into cash. -/
theorem exitPosition_frame (cfg : Config) (st : SimState) (s : String)
    (bar : Option Bar) (r : String) :
    (exitPosition cfg st s bar r).equity_curve = st.equity_curve ∧
      (exitPosition cfg st s bar r).curBar = st.curBar ∧
      (exitPosition cfg st s bar r).idx = st.idx ∧
      (exitPosition cfg st s bar r).bse = st.bse ∧
      (exitPosition cfg st s bar r).cooldown = st.cooldown ∧
      (exitPosition cfg st s bar r).cash - sumPnl (exitPosition cfg st s bar r).trades
        = st.cash - sumPnl st.trades := by
  unfold exitPosition
  split
  · refine ⟨rfl, rfl, rfl, rfl, rfl, ?_⟩
    simp [sumPnl]
  · exact ⟨rfl, rfl, rfl, rfl, rfl, rfl⟩

/-- Processing one `to_close` entry only exits, sets cooldown and clears
the time-stop counter: the equity curve, current bars and cursors are
untouched and cash moves exactly by realized pnl. -/
theorem closeOne_frame (cfg : Config) (st : SimState) (p : String × String) :
    (closeOne cfg st p).equity_curve = st.equity_curve ∧
      (closeOne cfg st p).curBar = st.curBar ∧
      (closeOne cfg st p).idx = st.idx ∧
      (closeOne cfg st p).cash - sumPnl (closeOne cfg st p).trades
        = st.cash - sumPnl st.trades := by
  obtain ⟨h1, h2, h3, _, _, h6⟩ :=
    exitPosition_frame cfg st p.1 (alGet st.curBar p.1 none) p.2
  unfold closeOne
  dsimp only
  split
  · split
    · exact ⟨h1, h2, h3, h6⟩
    · exact ⟨h1, h2, h3, h6⟩
  · exact ⟨h1, h2, h3, h6⟩

/-- The alignment check only exits and clears the time-stop counter: the
equity curve, current bars and cursors are untouched and cash moves
exactly by realized pnl. -/
theorem alignOne_frame (ctx : Ctx) (st : SimState) (p : String × Position) :
    (alignOne ctx st p).equity_curve = st.equity_curve ∧
      (alignOne ctx st p).curBar = st.curBar ∧
      (alignOne ctx st p).idx = st.idx ∧
      (alignOne ctx st p).cash - sumPnl (alignOne ctx st p).trades
        = st.cash - sumPnl st.trades := by
  obtain ⟨h1, h2, h3, _, _, h6⟩ :=
    exitPosition_frame ctx.cfg st p.1 (alGet st.curBar p.1 none) "alignment_lost"
  unfold alignOne
  dsimp only
  split
  · exact ⟨rfl, rfl, rfl, rfl⟩
  · split
    · exact ⟨h1, h2, h3, h6⟩
    · exact ⟨rfl, rfl, rfl, rfl⟩

/-- A pyramid-add attempt mutates only the position map: cash, the trade
list and everything else are untouched. -/
theorem tryAdd_frame (ctx : Ctx) (st : SimState) (s : String) :
    (tryAdd ctx st s).cash = st.cash ∧ (tryAdd ctx st s).trades = st.trades ∧
      (tryAdd ctx st s).equity_curve = st.equity_curve ∧
      (tryAdd ctx st s).curBar = st.curBar ∧
      (tryAdd ctx st s).idx = st.idx ∧ (tryAdd ctx st s).bse = st.bse ∧
      (tryAdd ctx st s).cooldown = st.cooldown := by
  unfold tryAdd
  dsimp only
  repeat' split
  all_goals exact ⟨rfl, rfl, rfl, rfl, rfl, rfl, rfl⟩

/-- The entry loop mutates only the position map and the time-stop
counters: cash and the trade list are untouched. -/
theorem entriesGo_frame (ctx : Ctx) (cands : List (String × ℤ × ℚ)) :
    ∀ st : SimState,
      (entriesGo ctx st cands).cash = st.cash ∧
        (entriesGo ctx st cands).trades = st.trades ∧
        (entriesGo ctx st cands).equity_curve = st.equity_curve ∧
        (entriesGo ctx st cands).curBar = st.curBar ∧
        (entriesGo ctx st cands).idx = st.idx ∧
        (entriesGo ctx st cands).cooldown = st.cooldown := by
  induction cands with
  | nil => intro st; exact ⟨rfl, rfl, rfl, rfl, rfl, rfl⟩
  | cons c rest ih =>
      intro st
      rcases c with ⟨s, side, sc⟩
      unfold entriesGo
      dsimp only
      repeat' split
      all_goals first
        | exact ⟨rfl, rfl, rfl, rfl, rfl, rfl⟩
        | exact ih st
        | exact ih _

/-- The bar-advance phase touches neither money nor records. -/
theorem stepAdvance_frame (ctx : Ctx) (st : SimState) (ts : ℤ) :
    (stepAdvance ctx st ts).cash = st.cash ∧
      (stepAdvance ctx st ts).trades = st.trades ∧
      (stepAdvance ctx st ts).equity_curve = st.equity_curve ∧
      (stepAdvance ctx st ts).position = st.position := by
  refine ⟨?_, ?_, ?_, ?_⟩
  · exact foldl_pres _ (fun s2 => s2.cash) (fun s2 q => (advSym_frame ts s2 q).1) _ st
  · exact foldl_pres _ (fun s2 => s2.trades) (fun s2 q => (advSym_frame ts s2 q).2.1) _ st
  · exact foldl_pres _ (fun s2 => s2.equity_curve)
      (fun s2 q => (advSym_frame ts s2 q).2.2.1) _ st
  · exact foldl_pres _ (fun s2 => s2.position)
      (fun s2 q => (advSym_frame ts s2 q).2.2.2) _ st

/-- The stop phase touches neither money nor records nor current bars. -/
theorem stopPhase_frame (ctx : Ctx) (st : SimState) :
    (stopPhase ctx st).1.cash = st.cash ∧ (stopPhase ctx st).1.trades = st.trades ∧
      (stopPhase ctx st).1.equity_curve = st.equity_curve ∧
      (stopPhase ctx st).1.curBar = st.curBar := by
  refine ⟨?_, ?_, ?_, ?_⟩
  · exact foldl_pres _ (fun a => a.1.cash) (fun a q => (stopOne_frame ctx a q).1) _ (st, [])
  · exact foldl_pres _ (fun a => a.1.trades) (fun a q => (stopOne_frame ctx a q).2.1) _ (st, [])
  · exact foldl_pres _ (fun a => a.1.equity_curve)
      (fun a q => (stopOne_frame ctx a q).2.2.1) _ (st, [])
  · exact foldl_pres _ (fun a => a.1.curBar)
      (fun a q => (stopOne_frame ctx a q).2.2.2) _ (st, [])

/-- The close phase preserves the equity curve, the current bars, the
cursors, and cash net of realized pnl. -/
theorem closePhase_frame (cfg : Config) (st : SimState)
    (tc : List (String × String)) :
    (closePhase cfg st tc).equity_curve = st.equity_curve ∧
      (closePhase cfg st tc).curBar = st.curBar ∧
      (closePhase cfg st tc).idx = st.idx ∧
      (closePhase cfg st tc).cash - sumPnl (closePhase cfg st tc).trades
        = st.cash - sumPnl st.trades := by
  refine ⟨?_, ?_, ?_, ?_⟩
  · exact foldl_pres _ (fun a => a.equity_curve) (fun a q => (closeOne_frame cfg a q).1) _ st
  · exact foldl_pres _ (fun a => a.curBar) (fun a q => (closeOne_frame cfg a q).2.1) _ st
  · exact foldl_pres _ (fun a => a.idx) (fun a q => (closeOne_frame cfg a q).2.2.1) _ st
  · exact foldl_pres _ (fun a => a.cash - sumPnl a.trades)
      (fun a q => (closeOne_frame cfg a q).2.2.2) _ st

/-- The alignment phase preserves the equity curve, the current bars, the
cursors, and cash net of realized pnl. -/
theorem alignPhase_frame (ctx : Ctx) (st : SimState) :
    (alignPhase ctx st).equity_curve = st.equity_curve ∧
      (alignPhase ctx st).curBar = st.curBar ∧
      (alignPhase ctx st).idx = st.idx ∧
      (alignPhase ctx st).cash - sumPnl (alignPhase ctx st).trades
        = st.cash - sumPnl st.trades := by
  refine ⟨?_, ?_, ?_, ?_⟩
  · exact foldl_pres _ (fun a => a.equity_curve) (fun a q => (alignOne_frame ctx a q).1) _ st
  · exact foldl_pres _ (fun a => a.curBar) (fun a q => (alignOne_frame ctx a q).2.1) _ st
  · exact foldl_pres _ (fun a => a.idx) (fun a q => (alignOne_frame ctx a q).2.2.1) _ st
  · exact foldl_pres _ (fun a => a.cash - sumPnl a.trades)
      (fun a q => (alignOne_frame ctx a q).2.2.2) _ st

/-- The whole rebalance tick preserves the equity curve, the current bars
and cash net of realized pnl. -/
theorem rebalancePhase_frame (ctx : Ctx) (st : SimState) (step : ℤ) :
    (rebalancePhase ctx st step).equity_curve = st.equity_curve ∧
      (rebalancePhase ctx st step).curBar = st.curBar ∧
      (rebalancePhase ctx st step).cash - sumPnl (rebalancePhase ctx st step).trades
        = st.cash - sumPnl st.trades := by
  unfold rebalancePhase
  dsimp only
  obtain ⟨a1, a2, a3, a4⟩ := alignPhase_frame ctx
    { st with lastRebalance := step, cooldown := cooldownDecay st.cooldown }
  have addsPres : ∀ (l : List (String × Position)) (s0 : SimState),
      (l.foldl (fun s2 p => tryAdd ctx s2 p.1) s0).cash = s0.cash ∧
        (l.foldl (fun s2 p => tryAdd ctx s2 p.1) s0).trades = s0.trades ∧
        (l.foldl (fun s2 p => tryAdd ctx s2 p.1) s0).equity_curve = s0.equity_curve ∧
        (l.foldl (fun s2 p => tryAdd ctx s2 p.1) s0).curBar = s0.curBar := by
    intro l s0
    refine ⟨?_, ?_, ?_, ?_⟩
    · exact foldl_pres (fun s2 (p : String × Position) => tryAdd ctx s2 p.1)
        (fun a => a.cash) (fun a q => (tryAdd_frame ctx a q.1).1) l s0
    · exact foldl_pres (fun s2 (p : String × Position) => tryAdd ctx s2 p.1)
        (fun a => a.trades) (fun a q => (tryAdd_frame ctx a q.1).2.1) l s0
    · exact foldl_pres (fun s2 (p : String × Position) => tryAdd ctx s2 p.1)
        (fun a => a.equity_curve) (fun a q => (tryAdd_frame ctx a q.1).2.2.1) l s0
    · exact foldl_pres (fun s2 (p : String × Position) => tryAdd ctx s2 p.1)
        (fun a => a.curBar) (fun a q => (tryAdd_frame ctx a q.1).2.2.2.1) l s0
  obtain ⟨d1, d2, d3, d4⟩ := addsPres _ (alignPhase ctx
    { st with lastRebalance := step, cooldown := cooldownDecay st.cooldown })
  obtain ⟨e1, e2, e3, e4, e5, e6⟩ := entriesGo_frame ctx _ (List.foldl _ (alignPhase ctx
    { st with lastRebalance := step, cooldown := cooldownDecay st.cooldown }) _)
  refine ⟨?_, ?_, ?_⟩
  · rw [e3, d3, a1]
  · rw [e4, d4, a2]
  · rw [e1, e2, d1, d2, a4]

/-- The market-pointer phase touches only the market-pointer fields. -/
theorem stepMkt_frame (st : SimState) (ts : ℤ) :
    (stepMkt st ts).cash = st.cash ∧ (stepMkt st ts).trades = st.trades ∧
      (stepMkt st ts).equity_curve = st.equity_curve ∧
      (stepMkt st ts).curBar = st.curBar ∧ (stepMkt st ts).position = st.position := by
  exact ⟨rfl, rfl, rfl, rfl, rfl⟩

/-- The combined stop/close phases preserve the equity curve, the current
bars, and cash net of realized pnl. -/
theorem stepStops_frame (ctx : Ctx) (st : SimState) :
    (stepStops ctx st).equity_curve = st.equity_curve ∧
      (stepStops ctx st).curBar = st.curBar ∧
      (stepStops ctx st).cash - sumPnl (stepStops ctx st).trades
        = st.cash - sumPnl st.trades := by
  obtain ⟨s1, s2, s3, s4⟩ := stopPhase_frame ctx st
  obtain ⟨c1, c2, _, c4⟩ := closePhase_frame ctx.cfg (stopPhase ctx st).1 (stopPhase ctx st).2
  refine ⟨?_, ?_, ?_⟩
  · exact c1.trans s3
  · exact c2.trans s4
  · rw [stepStops, c4, s1, s2]

/-- The pre-record part of one step preserves the equity curve and cash
net of realized pnl. -/
theorem runStepCore_frame (ctx : Ctx) (st : SimState) (step : ℕ) (ts : ℤ) :
    (runStepCore ctx st step ts).equity_curve = st.equity_curve ∧
      (runStepCore ctx st step ts).cash - sumPnl (runStepCore ctx st step ts).trades
        = st.cash - sumPnl st.trades := by
  obtain ⟨a1, a2, a3, a4⟩ := stepAdvance_frame ctx st ts
  obtain ⟨m1, m2, m3, m4, m5⟩ := stepMkt_frame (stepAdvance ctx st ts) ts
  obtain ⟨p1, p2, p3⟩ := stepStops_frame ctx (stepMkt (stepAdvance ctx st ts) ts)
  unfold runStepCore
  dsimp only
  split
  · obtain ⟨r1, r2, r3⟩ := rebalancePhase_frame ctx
      (stepStops ctx (stepMkt (stepAdvance ctx st ts) ts)) step
    constructor
    · rw [r1, p1, m3, a3]
    · rw [r3, p3]
      rw [m1, m2, a1, a2]
  · constructor
    · rw [p1, m3, a3]
    · rw [p3, m1, m2, a1, a2]

/-- One full loop step appends exactly one equity record and otherwise
preserves cash net of realized pnl. -/
theorem runStep_frame (ctx : Ctx) (st : SimState) (p : ℕ × ℤ) :
    (runStep ctx st p).cash - sumPnl (runStep ctx st p).trades
      = st.cash - sumPnl st.trades := by
  have h := (runStepCore_frame ctx st p.1 p.2).2
  exact h

/-- The end-of-data liquidation preserves the equity curve and cash net
of realized pnl. -/
theorem eodPhase_frame (cfg : Config) (st : SimState) :
    (eodPhase cfg st).equity_curve = st.equity_curve ∧
      (eodPhase cfg st).cash - sumPnl (eodPhase cfg st).trades
        = st.cash - sumPnl st.trades := by
  constructor
  · exact foldl_pres (fun s2 s => exitPosition cfg s2 s (alGet s2.curBar s none) "eod")
      (fun a => a.equity_curve)
      (fun a q => (exitPosition_frame cfg a q (alGet a.curBar q none) "eod").1) _ st
  · exact foldl_pres (fun s2 s => exitPosition cfg s2 s (alGet s2.curBar s none) "eod")
      (fun a => a.cash - sumPnl a.trades)
      (fun a q => (exitPosition_frame cfg a q (alGet a.curBar q none) "eod").2.2.2.2.2) _ st

/-- C1: at every recorded step of the engine's run, the value appended to
the equity curve equals cash plus the sum over all open positions (that
have a current bar) of `side·qty·(current close − entry_price)` — the
cash, positions and bars being those of the state at the moment of the
record; the end-of-data liquidation appends no record and the curve
starts empty. -/
theorem C1_equity_curve_identity :
    (∀ (ctx : Ctx) (st : SimState) (p : ℕ × ℤ),
      (runStep ctx st p).equity_curve
        = st.equity_curve ++ [(p.2, (runStep ctx st p).cash +
            unrealizedSum (runStep ctx st p).position (runStep ctx st p).curBar)]) ∧
    (∀ (cfg : Config) (st : SimState),
      (eodPhase cfg st).equity_curve = st.equity_curve) ∧
    (∀ ctx : Ctx, (initState ctx).equity_curve = []) := by
  refine ⟨?_, ?_, fun _ => rfl⟩
  · intro ctx st p
    have h1 : (runStep ctx st p).equity_curve
        = (runStepCore ctx st p.1 p.2).equity_curve ++
          [(p.2, computeMtm (runStepCore ctx st p.1 p.2).curBar
              (runStepCore ctx st p.1 p.2).cash
              (runStepCore ctx st p.1 p.2).position)] := rfl
    rw [h1, (runStepCore_frame ctx st p.1 p.2).1, computeMtm_eq]
    rfl
  · intro cfg st
    exact (eodPhase_frame cfg st).1

/-- C4: cash moves only by the realized pnl of closed trades — a full
loop step changes cash by exactly the total pnl of the trades it appends,
a pyramid add and the whole entry loop leave cash (and the trade list)
unchanged, and over a whole run the final cash is the initial equity plus
the total realized pnl of all trades. -/
theorem C4_cash_only_at_close :
    (∀ (ctx : Ctx) (st : SimState) (p : ℕ × ℤ),
      (runStep ctx st p).cash - sumPnl (runStep ctx st p).trades
        = st.cash - sumPnl st.trades) ∧
    (∀ (ctx : Ctx) (st : SimState) (s : String),
      (tryAdd ctx st s).cash = st.cash ∧ (tryAdd ctx st s).trades = st.trades) ∧
    (∀ (ctx : Ctx) (cands : List (String × ℤ × ℚ)) (st : SimState),
      (entriesGo ctx st cands).cash = st.cash ∧
        (entriesGo ctx st cands).trades = st.trades) ∧
    (∀ (data : List (String × List Bar)) (cfg : Config),
      (run data cfg).cash = cfg.initial_equity + sumPnl (run data cfg).trades) := by
  refine ⟨runStep_frame, ?_, ?_, ?_⟩
  · intro ctx st s
    exact ⟨(tryAdd_frame ctx st s).1, (tryAdd_frame ctx st s).2.1⟩
  · intro ctx cands st
    exact ⟨(entriesGo_frame ctx cands st).1, (entriesGo_frame ctx cands st).2.1⟩
  · intro data cfg
    have hfold := foldl_pres (runStep (mkCtx data cfg))
      (fun a => a.cash - sumPnl a.trades)
      (fun a q => runStep_frame (mkCtx data cfg) a q)
      ((allTimestamps data).enum) (initState (mkCtx data cfg))
    have heod := (eodPhase_frame cfg
      (((allTimestamps data).enum).foldl (runStep (mkCtx data cfg))
        (initState (mkCtx data cfg)))).2
    have hrun : (run data cfg).cash - sumPnl (run data cfg).trades
        = (initState (mkCtx data cfg)).cash
          - sumPnl (initState (mkCtx data cfg)).trades := by
      rw [run]
      exact heod.trans hfold
    have hinit : (initState (mkCtx data cfg)).cash
        - sumPnl (initState (mkCtx data cfg)).trades = cfg.initial_equity := by
      simp [initState, sumPnl, mkCtx]
    rw [hinit] at hrun
    linarith

/-- C9: the simulation is a pure function of the bar data and the
configuration — two runs on equal inputs produce equal states (trades,
equity curve and all). -/
theorem C9_deterministic (d1 d2 : List (String × List Bar)) (c1 c2 : Config)
    (hd : d1 = d2) (hc : c1 = c2) : run d1 c1 = run d2 c2 := by
  rw [hd, hc]

/-- Witness for C9 at concrete inputs. -/
theorem C9_deterministic_witness :
    dataA = dataA ∧ cfgT = cfgT ∧ run dataA cfgT = run dataA cfgT :=
  ⟨rfl, rfl, C9_deterministic dataA dataA cfgT cfgT rfl rfl⟩

/-- C3: one pass of the per-step stop management never loosens the stop —
for a long position the new `trail_stop` is at least the old one, for a
short position at most — and an executed pyramid add never changes
`trail_stop`. -/
theorem C3_trail_stop_ratchet (cfg : Config) (pos : Position) (b : Bar)
    (atr_i : ℚ) :
    (0 < pos.side → pos.trail_stop ≤ (stopUpdate cfg pos b atr_i).trail_stop) ∧
    (¬0 < pos.side → (stopUpdate cfg pos b atr_i).trail_stop ≤ pos.trail_stop) ∧
    (∀ add_qty add_price mtm_now : ℚ,
      (applyAdd pos add_qty add_price mtm_now).trail_stop = pos.trail_stop) := by
  refine ⟨?_, ?_, fun _ _ _ => rfl⟩
  · intro h
    unfold stopUpdate
    rw [if_pos h]
    dsimp only
    split_ifs <;> simp [le_max_iff]
  · intro h
    unfold stopUpdate
    rw [if_neg h]
    dsimp only
    split_ifs <;> simp [min_le_iff]

/-- Witness for C3 at a concrete long and a concrete short position. -/
theorem C3_trail_stop_ratchet_witness :
    posX.trail_stop ≤ (stopUpdate cfgT posX barX (1 / 2)).trail_stop ∧
      (stopUpdate cfgT posS barX (1 / 2)).trail_stop ≤ posS.trail_stop :=
  ⟨(C3_trail_stop_ratchet cfgT posX barX (1 / 2)).1 (by decide),
   (C3_trail_stop_ratchet cfgT posS barX (1 / 2)).2.1 (by decide)⟩

/-- Common tail of both sizing decisions: the final notional
`min desired allowed`, with `allowed` still positive and itself at most
the leverage headroom, is clipped to the headroom, and the resulting
quantity at a positive price keeps `exposure + qty·price` at or below the
cap. -/
theorem sized_le_cap (cap exp allowed desired price fn q : ℚ)
    (hallowed_le : allowed ≤ max 0 (cap - exp))
    (h2 : ¬allowed ≤ 0)
    (h3 : ¬min desired allowed ≤ 0)
    (hfn : min desired allowed = fn)
    (hq : min desired allowed / max price eps = q) :
    fn ≤ max 0 (cap - exp) ∧ (0 < price → exp + q * price ≤ cap) ∧
      (0 < price → 0 < q) := by
  have hall : (0 : ℚ) < allowed := lt_of_not_le h2
  have hhead : (0 : ℚ) < max 0 (cap - exp) := lt_of_lt_of_le hall hallowed_le
  have hpos : (0 : ℚ) < cap - exp := by
    rcases lt_max_iff.mp hhead with hc | hc
    · exact absurd hc (lt_irrefl 0)
    · exact hc
  have hfn_le : fn ≤ max 0 (cap - exp) := by
    rw [← hfn]
    exact le_trans (min_le_right _ _) hallowed_le
  have hfn0 : (0 : ℚ) < fn := by rw [← hfn]; exact lt_of_not_le h3
  refine ⟨hfn_le, ?_, ?_⟩
  · intro hp
    have hmp : (0 : ℚ) < max price eps := lt_of_lt_of_le hp (le_max_left _ _)
    have hqp : q * price ≤ fn := by
      rw [← hq, hfn, div_mul_eq_mul_div, div_le_iff₀ hmp]
      exact mul_le_mul_of_nonneg_left (le_max_left price eps) hfn0.le
    have h5 := hfn_le
    rw [max_eq_right hpos.le] at h5
    linarith
  · intro hp
    have hmp : (0 : ℚ) < max price eps := lt_of_lt_of_le hp (le_max_left _ _)
    rw [← hq, hfn]
    exact div_pos hfn0 hmp

/-- C2: every executed sizing decision clips the new notional to the
remaining headroom below `max_actual_leverage · equity_now` and, for a
positive price, leaves the post-decision portfolio exposure at or below
that cap — for a fresh entry the new exposure is `exposure_cur +
qty·price`, and for a pyramid add the post-add sum `Σ|qty×close|` (the
held symbol's notional replaced by `|(qty+add_qty)·price|`) obeys the
same bound. -/
theorem C2_leverage_cap (cfg : Config) (mtm exp price atr fn q : ℚ) :
    (entrySize cfg mtm exp price atr = some (fn, q) →
      fn ≤ max 0 (cfg.max_actual_leverage * mtm - exp) ∧
        (0 < price → exp + q * price ≤ cfg.max_actual_leverage * mtm)) ∧
    (∀ (pq : ℚ) (ad : ℕ), addSize cfg mtm exp pq ad price atr = some (fn, q) →
      fn ≤ max 0 (cfg.max_actual_leverage * mtm - exp) ∧
        (0 < price → exp + q * price ≤ cfg.max_actual_leverage * mtm) ∧
        (0 ≤ pq → 0 < price →
          exp - |pq * price| + |(pq + q) * price|
            ≤ cfg.max_actual_leverage * mtm)) := by
  constructor
  · intro h
    unfold entrySize at h
    dsimp only at h
    set mn := (if 0 < cfg.min_actual_leverage then cfg.min_actual_leverage * mtm else 0)
      with hmn
    split_ifs at h with h1 h2 h3
    simp only [Option.some.injEq, Prod.mk.injEq] at h
    have hc := sized_le_cap (cfg.max_actual_leverage * mtm) exp _ _ price fn q
      (min_le_right _ _) h2 h3 h.1 h.2
    exact ⟨hc.1, hc.2.1⟩
  · intro pq ad h
    unfold addSize at h
    dsimp only at h
    set ml := (if cfg.pyramid_risk_multipliers = ([] : List ℚ) then [(1 : ℚ)]
      else cfg.pyramid_risk_multipliers) with hml
    set mn := (if 0 < cfg.min_actual_leverage then cfg.min_actual_leverage * mtm else 0)
      with hmn
    split_ifs at h with h1 h2 h3
    simp only [Option.some.injEq, Prod.mk.injEq] at h
    have hc := sized_le_cap (cfg.max_actual_leverage * mtm) exp _ _ price fn q
      (min_le_left _ _) h2 h3 h.1 h.2
    refine ⟨hc.1, hc.2.1, ?_⟩
    intro hpq hp
    have hq0 : (0 : ℚ) < q := hc.2.2 hp
    have habs1 : |pq * price| = pq * price := abs_of_nonneg (mul_nonneg hpq hp.le)
    have habs2 : |(pq + q) * price| = (pq + q) * price :=
      abs_of_nonneg (mul_nonneg (by linarith) hp.le)
    have hcap := hc.2.1 hp
    rw [habs1, habs2]
    nlinarith

/-- Witness for C2: a concrete executed entry and a concrete executed add
both respect the cap. -/
theorem C2_leverage_cap_witness :
    (entrySize cfgT 10000 0 102 2 = some (2000, 1000 / 51) ∧
      2000 ≤ max 0 (cfgT.max_actual_leverage * 10000 - 0) ∧
      0 + (1000 / 51 : ℚ) * 102 ≤ cfgT.max_actual_leverage * 10000) ∧
    (addSize cfgT 10000 2000 5 0 102 2 = some (1490, 745 / 51) ∧
      1490 ≤ max 0 (cfgT.max_actual_leverage * 10000 - 2000) ∧
      2000 + (745 / 51 : ℚ) * 102 ≤ cfgT.max_actual_leverage * 10000 ∧
      2000 - |(5 : ℚ) * 102| + |((5 : ℚ) + 745 / 51) * 102|
        ≤ cfgT.max_actual_leverage * 10000) := by
  have h1 : entrySize cfgT 10000 0 102 2 = some (2000, 1000 / 51) := by decide
  have h2 : addSize cfgT 10000 2000 5 0 102 2 = some (1490, 745 / 51) := by decide
  have w1 := (C2_leverage_cap cfgT 10000 0 102 2 2000 (1000 / 51)).1 h1
  have w2 := (C2_leverage_cap cfgT 10000 2000 102 2 1490 (745 / 51)).2 5 0 h2
  exact ⟨⟨h1, w1.1, w1.2 (by norm_num)⟩,
    ⟨h2, w2.1, w2.2.1 (by norm_num), w2.2.2 (by norm_num) (by norm_num)⟩⟩

/-- C8: closing a position with a bar appends exactly one trade whose
exit price is the close shifted against the trader by slippage, whose
fees are `fee_rate · (accumulated entry notional + exit notional)`
charged once, whose pnl is `side·qty·(exit − entry) − fees`, and whose
pnl is added to cash; with zero slippage and zero fees a long's pnl is
exactly `qty · (close − entry_price)`. -/
theorem C8_exit_accounting (cfg : Config) (st : SimState) (s : String)
    (b : Bar) (r : String) (pos : Position)
    (hpos : alGetOpt st.position s = some pos)
    (hacc : pos.acc_entry_notional ≠ 0) :
    ∃ t : Trade,
      (exitPosition cfg st s (some b) r).trades = st.trades ++ [t] ∧
      t.exit_price = b.c - (if 0 < pos.side then bpsToPrice b.c cfg.slippage_bps
        else -bpsToPrice b.c cfg.slippage_bps) ∧
      t.fees = cfg.fee_rate * (pos.acc_entry_notional + |pos.qty * t.exit_price|) ∧
      t.pnl = (if 0 < pos.side then (1 : ℚ) else -1) * pos.qty *
        (t.exit_price - pos.entry_price) - t.fees ∧
      (exitPosition cfg st s (some b) r).cash = st.cash + t.pnl ∧
      (cfg.slippage_bps = 0 → cfg.fee_rate = 0 → 0 < pos.side →
        t.pnl = pos.qty * (b.c - pos.entry_price)) := by
  unfold exitPosition
  rw [hpos]
  dsimp only
  refine ⟨_, rfl, rfl, ?_, rfl, rfl, ?_⟩
  · dsimp only
    rw [if_pos hacc]
  · intro hs hf hside
    dsimp only
    rw [if_pos hside]
    simp [bpsToPrice, hs, hf, if_pos hside]

/-- Witness for C8 at a concrete state, position and bar. -/
theorem C8_exit_accounting_witness :
    alGetOpt stE.position "X" = some posW ∧ posW.acc_entry_notional ≠ 0 ∧
    ∃ t : Trade,
      (exitPosition cfgT stE "X" (some barX) "trail_stop").trades
        = stE.trades ++ [t] ∧
      t.exit_price = barX.c - (if 0 < posW.side
        then bpsToPrice barX.c cfgT.slippage_bps
        else -bpsToPrice barX.c cfgT.slippage_bps) ∧
      t.fees = cfgT.fee_rate *
        (posW.acc_entry_notional + |posW.qty * t.exit_price|) ∧
      t.pnl = (if 0 < posW.side then (1 : ℚ) else -1) * posW.qty *
        (t.exit_price - posW.entry_price) - t.fees ∧
      (exitPosition cfgT stE "X" (some barX) "trail_stop").cash
        = stE.cash + t.pnl ∧
      (cfgT.slippage_bps = 0 → cfgT.fee_rate = 0 → 0 < posW.side →
        t.pnl = posW.qty * (barX.c - posW.entry_price)) :=
  ⟨by decide, by decide,
    C8_exit_accounting cfgT stE "X" barX "trail_stop" posW (by decide) (by decide)⟩

/-- Once `top_k` positions are held the entry loop does nothing at all. -/
theorem entriesGo_break (ctx : Ctx) (st : SimState)
    (l : List (String × ℤ × ℚ))
    (h : ctx.cfg.top_k ≤ (st.position.length : ℤ)) : entriesGo ctx st l = st := by
  cases l with
  | nil => rfl
  | cons c rest =>
      rcases c with ⟨s, side, sc⟩
      unfold entriesGo
      rw [if_pos h]

/-- C5 (amended): a nonpositive (or null, coerced-to-zero) current ATR
skips the pyramid add and the fresh entry for that symbol at that tick,
but the trailing-stop recompute is not skipped — it runs with that ATR
value, ratcheting `trail_stop` against `max_fav_price ∓ m2·ATR` as usual
(`max_fav_price` itself when ATR is zero). -/
theorem C5_atr_gate (ctx : Ctx) (st : SimState) (s : String) (side : ℤ)
    (sc : ℚ) (rest : List (String × ℤ × ℚ)) (cfg : Config) (pos : Position)
    (b : Bar) (atr_i : ℚ) :
    (orZero ((ctxFeat ctx s).atrs.getD (alGet st.idx s 0 - 1) none) ≤ 0 →
      tryAdd ctx st s = st) ∧
    (orZero ((ctxFeat ctx s).atrs.getD (alGet st.idx s 0 - 1) none) ≤ 0 →
      entriesGo ctx st ((s, side, sc) :: rest) = entriesGo ctx st rest) ∧
    (atr_i ≤ 0 → 0 < pos.side →
      (stopUpdate cfg pos b atr_i).trail_stop
        = max pos.trail_stop
            (max pos.max_fav_price b.h - cfg.m2_trail_sl_atr * atr_i)) ∧
    (atr_i ≤ 0 → ¬0 < pos.side →
      (stopUpdate cfg pos b atr_i).trail_stop
        = min pos.trail_stop
            (min pos.max_fav_price b.l + cfg.m2_trail_sl_atr * atr_i)) := by
  refine ⟨?_, ?_, ?_, ?_⟩
  · intro h
    unfold tryAdd
    dsimp only
    simp only [if_pos h]
    repeat' split
    all_goals rfl
  · intro h
    by_cases hb : ctx.cfg.top_k ≤ (st.position.length : ℤ)
    · rw [entriesGo_break ctx st _ hb, entriesGo_break ctx st rest hb]
    · conv_lhs => unfold entriesGo
      rw [if_neg hb]
      dsimp only
      by_cases hheld : (alGetOpt st.position s).isSome = true
      · rw [if_pos hheld]
      · rw [if_neg hheld]
        split
        · rfl
        · rw [if_pos h]
  · intro hatr hside
    unfold stopUpdate
    rw [if_pos hside]
    dsimp only
    rw [if_neg fun hc => absurd hc.2.1 (not_lt.mpr hatr),
      if_neg fun hc => absurd hc.2.1 (not_lt.mpr hatr)]
  · intro hatr hside
    unfold stopUpdate
    rw [if_neg hside]
    dsimp only
    rw [if_neg fun hc => absurd hc.2.1 (not_lt.mpr hatr),
      if_neg fun hc => absurd hc.2.1 (not_lt.mpr hatr)]

/-- Witness for the amended C5 at concrete inputs: a skipped add, a
skipped entry, and the long and short stop recomputes at ATR zero. -/
theorem C5_atr_gate_witness :
    (orZero ((ctxFeat (mkCtx dataA cfgT) "X").atrs.getD
        (alGet stE.idx "X" 0 - 1) none) ≤ 0 ∧
      tryAdd (mkCtx dataA cfgT) stE "X" = stE) ∧
    (entriesGo (mkCtx dataA cfgT) stE [("X", 1, 0)]
      = entriesGo (mkCtx dataA cfgT) stE []) ∧
    ((stopUpdate cfgT posX barX 0).trail_stop
      = max posX.trail_stop
          (max posX.max_fav_price barX.h - cfgT.m2_trail_sl_atr * 0)) ∧
    ((stopUpdate cfgT posS barX 0).trail_stop
      = min posS.trail_stop
          (min posS.max_fav_price barX.l + cfgT.m2_trail_sl_atr * 0)) :=
  ⟨⟨by decide,
    (C5_atr_gate (mkCtx dataA cfgT) stE "X" 1 0 [] cfgT posX barX 0).1 (by decide)⟩,
   (C5_atr_gate (mkCtx dataA cfgT) stE "X" 1 0 [] cfgT posX barX 0).2.1 (by decide),
   (C5_atr_gate (mkCtx dataA cfgT) stE "X" 1 0 [] cfgT posX barX 0).2.2.1
     (by decide) (by decide),
   (C5_atr_gate (mkCtx dataA cfgT) stE "X" 1 0 [] cfgT posS barX 0).2.2.2
     (by decide) (by decide)⟩

/-- Counterexample to C5 as stated: at an ATR-zero tick the trailing-stop
update is not skipped — on the concrete position it moves `trail_stop`
from 100 to 103 — and in a full run on `dataA` this very recompute closes
the position with reason `trail_stop` at the flat (zero-true-range) bar at
timestamp 2, which a skipped recompute could never do (the stop would
have stayed at 100, strictly below the bar's low of 102). -/
theorem C5_counterexample :
    (stopUpdate cfgT posX barX 0).trail_stop ≠ posX.trail_stop ∧
    ((run dataA cfgT).trades.map fun t => (t.reason, t.exit_ts))
      = [("trail_stop", 2)] ∧
    (stopUpdate cfgT posX barX 0).trail_stop = 103 ∧ posX.trail_stop = 100 := by
  refine ⟨by decide, by decide, by decide, by decide⟩

/-- C6 (code evidence): construction never fails — the embedded
`Engine.__init__` is a total function — and the structurally invalid
`top_k = 0` is accepted and silently produces an empty trade list on
data that yields a trade under the otherwise-identical valid
configuration (no error, just degenerate output). -/
theorem C6_no_validation :
    (run dataA { cfgT with top_k := 0 }).trades = [] ∧
      (run dataA cfgT).trades ≠ [] ∧
      (initState (mkCtx dataA { cfgT with top_k := 0 })).cash
        = cfgT.initial_equity := by
  refine ⟨by decide, by decide, by decide⟩

/-- Updating a key and reading it back returns the stored value. -/
theorem alGet_alSet_self {α : Type} (m : List (String × α)) (k : String)
    (v d : α) : alGet (alSet m k v) k d = v := by
  induction m with
  | nil => simp [alGet, alSet, alGetOpt]
  | cons p rest ih =>
      obtain ⟨k2, v2⟩ := p
      by_cases h : k2 = k
      · simp [alSet, alGet, alGetOpt, h]
      · unfold alSet
        rw [if_neg h]
        unfold alGet alGetOpt
        rw [if_neg h]
        exact ih

/-- C7 (amended): the cooldown counter is set (to the maximum of its
current value and `cooldown_bars`) only by the per-step stop-check exits
— when the trade just closed by `closeOne` is a loss for that symbol; an
`alignment_lost` exit and the end-of-data liquidation never touch the
cooldown map; and a symbol whose (post-decay) cooldown is positive never
appears in the candidate list of a rebalance tick. -/
theorem C7_cooldown_amended :
    (∀ (cfg : Config) (st : SimState) (s r : String) (t : Trade),
      (exitPosition cfg st s (alGet st.curBar s none) r).trades.getLast?
          = some t →
      t.symbol = s → t.pnl < 0 →
      (closeOne cfg st (s, r)).cooldown
        = alSet st.cooldown s (max (alGet st.cooldown s 0) cfg.cooldown_bars)) ∧
    (∀ (ctx : Ctx) (st : SimState) (p : String × Position),
      (alignOne ctx st p).cooldown = st.cooldown) ∧
    (∀ (cfg : Config) (st : SimState),
      (eodPhase cfg st).cooldown = st.cooldown) ∧
    (∀ (ctx : Ctx) (poolSet : List String) (cd : List (String × ℤ))
      (curBar : List (String × Option Bar)) (mktCur : Option ℚ)
      (vl : List (String × ℕ × ℚ × ℚ)) (z1 z2 : List (Option ℚ))
      (c : String × ℤ × ℚ),
      c ∈ candGo ctx poolSet cd curBar mktCur vl z1 z2 →
        alGet cd c.1 0 ≤ 0) := by
  refine ⟨?_, ?_, ?_, ?_⟩
  · intro cfg st s r t hlast hsym hpnl
    have hcool := (exitPosition_frame cfg st s (alGet st.curBar s none) r).2.2.2.2.1
    unfold closeOne
    dsimp only
    rw [hlast]
    dsimp only
    rw [if_pos ⟨hsym, hpnl⟩]
    dsimp only
    rw [hcool]
  · intro ctx st p
    have hcool := (exitPosition_frame ctx.cfg st p.1
      (alGet st.curBar p.1 none) "alignment_lost").2.2.2.2.1
    unfold alignOne
    dsimp only
    split
    · rfl
    · split
      · exact hcool
      · rfl
  · intro cfg st
    exact foldl_pres (fun s2 s => exitPosition cfg s2 s (alGet s2.curBar s none) "eod")
      (fun a => a.cooldown)
      (fun a q => (exitPosition_frame cfg a q (alGet a.curBar q none) "eod").2.2.2.2.1)
      _ st
  · intro ctx poolSet cd curBar mktCur vl
    induction vl with
    | nil => intro z1 z2 c hc; cases hc
    | cons q vt ih =>
        intro z1 z2 c hc
        cases z1 with
        | nil => cases hc
        | cons z1v z1t =>
            cases z2 with
            | nil => cases hc
            | cons z2v z2t =>
                rw [candGo.eq_def] at hc
                dsimp only at hc
                split at hc
                · exact ih z1t z2t c hc
                · rename_i hskip
                  have hcd : alGet cd q.1 0 ≤ 0 := by
                    simp only [Bool.or_eq_true, decide_eq_true_eq,
                      not_or] at hskip
                    exact not_lt.mp hskip.2
                  repeat' split at hc
                  all_goals try exact ih z1t z2t c hc
                  all_goals obtain hceq | hmem := List.mem_cons.mp hc
                  all_goals try (rw [hceq]; exact hcd)
                  all_goals exact ih z1t z2t c hmem

/-- Witness for the amended C7: a concrete losing stop exit that sets the
cooldown, a concrete alignment check that leaves it alone, a concrete
liquidation that leaves it alone, and a concrete candidate whose cooldown
is not positive. -/
theorem C7_cooldown_amended_witness :
    ((exitPosition cfgT stL "X" (alGet stL.curBar "X" none)
        "trail_stop").trades.getLast? = some tLoss ∧
      tLoss.symbol = "X" ∧ tLoss.pnl < 0 ∧
      (closeOne cfgT stL ("X", "trail_stop")).cooldown
        = alSet stL.cooldown "X"
            (max (alGet stL.cooldown "X" 0) cfgT.cooldown_bars)) ∧
    (alignOne (mkCtx dataA cfgT) stE ("X", posW)).cooldown = stE.cooldown ∧
    (eodPhase cfgT stE).cooldown = stE.cooldown ∧
    (("A", (1 : ℤ), (0 : ℚ)) ∈ candGo (mkCtx dataA cfgT) ["A"] []
        [("A", some barU)] none [("A", 1, 0, 0)] [some 0] [some 0] ∧
      alGet ([] : List (String × ℤ)) "A" 0 ≤ 0) :=
  ⟨⟨by decide, by decide, by decide,
    C7_cooldown_amended.1 cfgT stL "X" "trail_stop" tLoss (by decide) (by decide)
      (by decide)⟩,
   C7_cooldown_amended.2.1 (mkCtx dataA cfgT) stE ("X", posW),
   C7_cooldown_amended.2.2.1 cfgT stE,
   ⟨by decide,
    C7_cooldown_amended.2.2.2 (mkCtx dataA cfgT) ["A"] [] [("A", some barU)]
      none [("A", 1, 0, 0)] [some 0] [some 0] ("A", 1, 0) (by decide)⟩⟩

/-- Counterexample to C7 as stated: on `dataB` the engine takes a losing
exit with reason `alignment_lost` at timestamp 2 (`cooldown_bars = 24`
under `cfgB`), yet the same symbol re-enters at the very next rebalance
tick, timestamp 3 — so the losing exit did not set the cooldown counter
that the claim says every losing exit sets. -/
theorem C7_counterexample :
    ((run dataB cfgB).trades.map fun t => (t.reason, t.entry_ts, t.exit_ts))
        = [("alignment_lost", 1, 2), ("eod", 3, 3)] ∧
      ((run dataB cfgB).trades.map fun t => decide (t.pnl < 0))
        = [true, false] ∧
      cfgB.cooldown_bars = 24 := by
  refine ⟨by decide, by decide, by decide⟩

set_option maxRecDepth 8000 in
/-- C10: in the bar-advance phase the time-stop counter of a symbol with
an open position is incremented exactly when the symbol has some current
bar after advancing — the cursor advance itself is the identity when no
new bars remain, so the counter keeps growing through a data gap — and on
the concrete gap scenario `dataG` (bars only at timestamps 0..2, global
axis 0..6, `time_stop_bars = 5`) the position exits with reason
`time_stop` at the stale bar of timestamp 2 after five global steps. -/
theorem C10_gap_time_stop (ts : ℤ) (st : SimState) (s : String)
    (bars : List Bar) :
    ((alGetOpt st.position s).isSome = true →
      (advGo ts (bars.drop (alGet st.idx s 0)) (alGet st.idx s 0)
          (alGet st.curBar s none)).2.isSome = true →
      alGet (advSym ts st (s, bars)).bse s 0 = alGet st.bse s 0 + 1) ∧
    (∀ (i : ℕ) (cur : Option Bar), advGo ts [] i cur = (i, cur)) ∧
    (((run dataG cfgG).trades.map fun t => (t.reason, t.entry_ts, t.exit_ts))
      = [("time_stop", 1, 2)]) := by
  refine ⟨?_, fun _ _ => rfl, by decide⟩
  intro h1 h2
  unfold advSym
  dsimp only
  rw [if_pos ⟨h1, h2⟩]
  dsimp only
  exact alGet_alSet_self _ _ _ _

/-- Witness for C10 at a concrete state in a data gap (no bars left to
consume, yet the counter advances from 2 to 3). -/
theorem C10_gap_time_stop_witness :
    (alGetOpt stE.position "X").isSome = true ∧
      (advGo 5 (([] : List Bar).drop (alGet stE.idx "X" 0))
          (alGet stE.idx "X" 0) (alGet stE.curBar "X" none)).2.isSome = true ∧
      alGet (advSym 5 stE ("X", [])).bse "X" 0 = alGet stE.bse "X" 0 + 1 :=
  ⟨by decide, by decide,
    (C10_gap_time_stop 5 stE "X" []).1 (by decide) (by decide)⟩

end StrategyPipeline
